import Mathlib

/-!
Verification development for the openhands-discord-bot repository.

We shallowly embed the two source modules:
  * `src/context7_client.py` — the Context7 HTTP client (`_request`,
    `search_library`, `get_context`);
  * `src/main.py` — the rendering pipeline (`_dedup_snippets`,
    `_safe_truncate`, `build_embed`).

Python strings are modelled as `List Char`; Python `int` as `Int` where
negative values can occur (slice bounds, truncation limits); fallible
dynamic-typing behaviour (e.g. `None[:200]` raising `TypeError`,
`"x".keys()` raising `AttributeError`) is modelled with `Except PyErr`.
-/

namespace OHBot

/-- The backtick character, written via its code point. -/
def backtick : Char := Char.ofNat 96

/-- The horizontal-ellipsis character appended by `_safe_truncate`. -/
def ellipsisChar : Char := Char.ofNat 8230

/-- The ellipsis marker `"…"` appended by `_safe_truncate`. -/
def ELLIPSIS : List Char := [ellipsisChar]

/-- Python `str.strip` / `str.rstrip` whitespace test (ASCII whitespace:
space, tab, newline, carriage return, vertical tab, form feed). -/
def isSpaceChar (c : Char) : Bool :=
  c = ' ' || c = '\t' || c = '\n' || c = '\r' || c = Char.ofNat 11 || c = Char.ofNat 12

/-- Python `str.lstrip()`. -/
def lstrip (s : List Char) : List Char := s.dropWhile isSpaceChar

/-- Python `str.rstrip()`. -/
def rstrip (s : List Char) : List Char := (s.reverse.dropWhile isSpaceChar).reverse

/-- Python `str.strip()`. -/
def strip (s : List Char) : List Char := lstrip (rstrip s)

/-- Python `str.lower()` (per-character lowering). -/
def toLowerL (s : List Char) : List Char := s.map Char.toLower

/-- Python slicing `s[:k]` where `k` may be negative (counted from the end,
clamped at 0), exactly as in CPython. -/
def pySliceTo (s : List Char) (k : Int) : List Char :=
  if 0 ≤ k then s.take k.toNat else s.take ((s.length : Int) + k).toNat

/-- Does the list start with a triple-backtick fence marker? -/
def isFence (s : List Char) : Bool :=
  match s with
  | a :: b :: c :: _ => a == backtick && b == backtick && c == backtick
  | _ => false

/-- Worker for `countFences`: scans left to right, `skip` counts characters
still to be consumed from a fence matched just before (Python's `str.count`
counts non-overlapping occurrences, greedily from the left). -/
def countFencesGo : List Char → Nat → Nat
  | [], _ => 0
  | _ :: rest, k + 1 => countFencesGo rest k
  | c :: rest, 0 =>
    if isFence (c :: rest) then 1 + countFencesGo rest 2 else countFencesGo rest 0

/-- Python `text.count("```")`: the number of non-overlapping occurrences
of the triple-backtick fence marker, scanned greedily from the left. -/
def countFences (s : List Char) : Nat := countFencesGo s 0

/-- Python `text.rfind("```")` as an option: the start index of the
rightmost occurrence of the fence marker, if any. -/
def rfindFence : List Char → Option Nat
  | [] => none
  | c :: rest =>
    match rfindFence rest with
    | some i => some (i + 1)
    | none => if isFence (c :: rest) then some 0 else none

/-- Python `text.rfind("```")` proper: `-1` when the marker is absent. -/
def rfindIdx (s : List Char) : Int :=
  match rfindFence s with
  | some i => (i : Int)
  | none => -1

/-- `_safe_truncate(text, limit)` from `src/main.py`:
if the text fits, return it unchanged; otherwise cut to `text[:limit-1]`,
and if that leaves an odd number of fence markers, cut again just before
the last marker (`truncated[:truncated.rfind("```")].rstrip()`); finally
append the ellipsis character. -/
def safe_truncate (text : List Char) (limit : Int) : List Char :=
  if (text.length : Int) ≤ limit then text
  else
    (if countFences (pySliceTo text (limit - 1)) % 2 ≠ 0 then
      rstrip (pySliceTo (pySliceTo text (limit - 1))
        (rfindIdx (pySliceTo text (limit - 1))))
    else
      pySliceTo text (limit - 1)) ++ ELLIPSIS

/-! ### Basic lemmas about the fence counter -/

theorem countFencesGo_eq_drop (s : List Char) : ∀ k, countFencesGo s k = countFences (s.drop k) := by
  induction s with
  | nil => intro k; simp [countFencesGo, countFences]
  | cons c rest ih =>
    intro k
    cases k with
    | zero => simp [countFences]
    | succ k => simpa [countFencesGo] using ih k

theorem countFences_nil : countFences [] = 0 := rfl

theorem countFences_cons (c : Char) (rest : List Char) :
    countFences (c :: rest) =
      if isFence (c :: rest) then 1 + countFences (rest.drop 2) else countFences rest := by
  show countFencesGo (c :: rest) 0 = _
  rw [countFencesGo]
  by_cases h : isFence (c :: rest) <;> simp [h, countFencesGo_eq_drop]

theorem isFence_false_of_head {c : Char} (h : ¬ c = backtick) (r : List Char) :
    isFence (c :: r) = false := by
  cases r with
  | nil => rfl
  | cons b r' =>
    cases r' with
    | nil => rfl
    | cons d r'' => simp [isFence, h]

theorem isFence_false_of_clean {w : List Char} (hw : ∀ c ∈ w, ¬ c = backtick) :
    isFence w = false := by
  cases w with
  | nil => rfl
  | cons c r => exact isFence_false_of_head (hw c (by simp)) r

theorem countFences_eq_zero_of_clean {w : List Char} (hw : ∀ c ∈ w, ¬ c = backtick) :
    countFences w = 0 := by
  induction w with
  | nil => rfl
  | cons c r ih =>
    rw [countFences_cons, isFence_false_of_head (hw c (by simp)) r]
    simpa using ih (fun x hx => hw x (by simp [hx]))

theorem rfind_cons_none {c : Char} {r : List Char} (h : rfindFence (c :: r) = none) :
    rfindFence r = none ∧ isFence (c :: r) = false := by
  cases hr : rfindFence r with
  | some i => simp [rfindFence, hr] at h
  | none =>
    refine ⟨rfl, ?_⟩
    by_cases hf : isFence (c :: r)
    · simp [rfindFence, hr, hf] at h
    · simpa using hf

theorem countFences_eq_zero_of_rfind_none :
    ∀ {u : List Char}, rfindFence u = none → countFences u = 0 := by
  intro u
  induction u with
  | nil => intro _; rfl
  | cons c r ih =>
    intro h
    obtain ⟨hr, hf⟩ := rfind_cons_none h
    rw [countFences_cons, hf]
    simpa using ih hr

theorem rfind_cons_succ {c : Char} {r : List Char} {j : Nat}
    (h : rfindFence (c :: r) = some (j + 1)) : rfindFence r = some j := by
  cases hr : rfindFence r with
  | some i =>
    simp only [rfindFence, hr, Option.some.injEq] at h
    exact congrArg some (by omega)
  | none =>
    by_cases hf : isFence (c :: r) <;> simp [rfindFence, hr, hf] at h

theorem rfind_cons_zero {c : Char} {r : List Char}
    (h : rfindFence (c :: r) = some 0) : rfindFence r = none ∧ isFence (c :: r) = true := by
  cases hr : rfindFence r with
  | some i => simp [rfindFence, hr] at h
  | none =>
    by_cases hf : isFence (c :: r)
    · exact ⟨rfl, hf⟩
    · simp [rfindFence, hr, hf] at h

theorem isFence_cons_take {c : Char} {r : List Char} {i : Nat}
    (h : isFence (c :: r.take i) = true) : isFence (c :: r) = true := by
  cases i with
  | zero => simp [isFence] at h
  | succ i =>
    cases r with
    | nil => simp [isFence] at h
    | cons a r' =>
      cases i with
      | zero => simp [isFence] at h
      | succ i =>
        cases r' with
        | nil => simp [isFence] at h
        | cons b r'' => simpa [isFence] using h

/-- Cutting a string at the start of the *rightmost* fence marker removes
exactly one fence from the non-overlapping fence count. -/
theorem count_take_rfind :
    ∀ (n : Nat) (t : List Char) (i : Nat), t.length ≤ n → rfindFence t = some i →
      countFences (t.take i) + 1 = countFences t := by
  intro n
  induction n with
  | zero =>
    intro t i hlen hr
    cases t with
    | nil => simp [rfindFence] at hr
    | cons c r => simp at hlen
  | succ n ih =>
    intro t i hlen hr
    cases t with
    | nil => simp [rfindFence] at hr
    | cons c r =>
      have hlr : r.length ≤ n := by simp at hlen; omega
      by_cases hf : isFence (c :: r) = true
      · cases r with
        | nil => simp [isFence] at hf
        | cons a r' =>
          cases r' with
          | nil => simp [isFence] at hf
          | cons b r'' =>
            have hcount : countFences (c :: a :: b :: r'') = 1 + countFences r'' := by
              rw [countFences_cons, if_pos hf]
              simp [List.drop_succ_cons, List.drop_zero]
            cases i with
            | zero =>
              obtain ⟨hrn, -⟩ := rfind_cons_zero hr
              obtain ⟨hrn2, -⟩ := rfind_cons_none hrn
              obtain ⟨hrn3, -⟩ := rfind_cons_none hrn2
              have h0 : countFences r'' = 0 := countFences_eq_zero_of_rfind_none hrn3
              simp [hcount, h0, countFences_nil]
            | succ i =>
              have hr1 : rfindFence (a :: b :: r'') = some i := rfind_cons_succ hr
              cases i with
              | zero =>
                obtain ⟨hrn, -⟩ := rfind_cons_zero hr1
                obtain ⟨hrn2, -⟩ := rfind_cons_none hrn
                have h0 : countFences r'' = 0 := countFences_eq_zero_of_rfind_none hrn2
                have hc1 : countFences [c] = 0 := rfl
                simp [List.take_succ_cons, List.take_zero, hc1, hcount, h0]
              | succ i =>
                have hr2 : rfindFence (b :: r'') = some i := rfind_cons_succ hr1
                cases i with
                | zero =>
                  obtain ⟨hrn, -⟩ := rfind_cons_zero hr2
                  have h0 : countFences r'' = 0 := countFences_eq_zero_of_rfind_none hrn
                  have hc2 : countFences [c, a] = 0 := rfl
                  simp [List.take_succ_cons, List.take_zero, hc2, hcount, h0]
                | succ j =>
                  have hr3 : rfindFence r'' = some j := rfind_cons_succ hr2
                  have hlr2 : r''.length ≤ n := by simp at hlen; omega
                  have ihr := ih r'' j hlr2 hr3
                  have htake : (c :: a :: b :: r'').take (j + 1 + 1 + 1) =
                      c :: a :: b :: r''.take j := rfl
                  rw [htake, hcount]
                  have hf2 : isFence (c :: a :: b :: r''.take j) = true := hf
                  rw [countFences_cons, if_pos hf2]
                  show 1 + countFences (r''.take j) + 1 = 1 + countFences r''
                  omega
      · have hf' : isFence (c :: r) = false := by
          cases hfc : isFence (c :: r) with
          | false => rfl
          | true => exact absurd hfc hf
        cases i with
        | zero =>
          obtain ⟨-, hft⟩ := rfind_cons_zero hr
          exact absurd hft hf
        | succ i =>
          have hr' : rfindFence r = some i := rfind_cons_succ hr
          have hfx : isFence (c :: r.take i) = false := by
            cases h2 : isFence (c :: r.take i) with
            | false => rfl
            | true => exact absurd (isFence_cons_take h2) hf
          have ihr := ih r i hlr hr'
          rw [List.take_succ_cons, countFences_cons c (List.take i r),
            countFences_cons c r, hfx, hf']
          simpa using ihr

theorem isFence_append {l w : List Char} (hw : ∀ c ∈ w, ¬ c = backtick) :
    isFence (l ++ w) = isFence l := by
  cases l with
  | nil =>
    simp only [List.nil_append]
    rw [isFence_false_of_clean hw]
    rfl
  | cons a l1 =>
    cases l1 with
    | nil =>
      cases w with
      | nil => rfl
      | cons x w1 =>
        cases w1 with
        | nil => rfl
        | cons y w2 =>
          have hx : (x == backtick) = false := beq_eq_false_iff_ne.mpr (hw x (by simp))
          simp [isFence, hx]
    | cons b l2 =>
      cases l2 with
      | nil =>
        cases w with
        | nil => rfl
        | cons x w1 =>
          have hx : (x == backtick) = false := beq_eq_false_iff_ne.mpr (hw x (by simp))
          simp [isFence, hx]
      | cons c l3 => rfl

theorem countFences_append_clean :
    ∀ (n : Nat) (l w : List Char), l.length ≤ n → (∀ c ∈ w, ¬ c = backtick) →
      countFences (l ++ w) = countFences l := by
  intro n
  induction n with
  | zero =>
    intro l w hlen hw
    cases l with
    | nil => simpa using countFences_eq_zero_of_clean hw
    | cons c r => simp at hlen
  | succ n ih =>
    intro l w hlen hw
    cases l with
    | nil => simpa using countFences_eq_zero_of_clean hw
    | cons c r =>
      have hlr : r.length ≤ n := by simp at hlen; omega
      simp only [List.cons_append]
      have hiso : isFence (c :: (r ++ w)) = isFence (c :: r) := by
        have h := isFence_append (l := c :: r) (w := w) hw
        simpa [List.cons_append] using h
      by_cases hfc : isFence (c :: r) = true
      · cases r with
        | nil => simp [isFence] at hfc
        | cons a r1 =>
          cases r1 with
          | nil => simp [isFence] at hfc
          | cons b r2 =>
            simp only [List.cons_append]
            have h1 : countFences (c :: a :: b :: (r2 ++ w)) = 1 + countFences (r2 ++ w) := by
              rw [countFences_cons,
                if_pos (show isFence (c :: a :: b :: (r2 ++ w)) = true from hfc)]
              simp [List.drop_succ_cons, List.drop_zero]
            have h2 : countFences (c :: a :: b :: r2) = 1 + countFences r2 := by
              rw [countFences_cons, if_pos hfc]
              simp [List.drop_succ_cons, List.drop_zero]
            rw [h1, h2, ih r2 w (by simp at hlen; omega) hw]
      · have hfc' : isFence (c :: r) = false := by
          cases hb : isFence (c :: r) with
          | false => rfl
          | true => exact absurd hb hfc
        rw [countFences_cons c (r ++ w), countFences_cons c r, hiso, hfc']
        simpa using ih r w hlr hw

theorem countFences_append_of_clean {l w : List Char} (hw : ∀ c ∈ w, ¬ c = backtick) :
    countFences (l ++ w) = countFences l :=
  countFences_append_clean l.length l w le_rfl hw

theorem mem_takeWhile_pred {p : Char → Bool} :
    ∀ {l : List Char} {c : Char}, c ∈ l.takeWhile p → p c = true := by
  intro l
  induction l with
  | nil => intro c h; simp [List.takeWhile] at h
  | cons a r ih =>
    intro c h
    by_cases hp : p a = true
    · rw [List.takeWhile_cons_of_pos hp] at h
      rcases List.mem_cons.mp h with h1 | h2
      · rw [h1]; exact hp
      · exact ih h2
    · rw [List.takeWhile_cons_of_neg (by simpa using hp)] at h
      simp at h

theorem rstrip_append_spec (s : List Char) :
    s = rstrip s ++ (s.reverse.takeWhile isSpaceChar).reverse ∧
      ∀ c ∈ (s.reverse.takeWhile isSpaceChar).reverse, isSpaceChar c = true := by
  constructor
  · calc s = s.reverse.reverse := (List.reverse_reverse s).symm
      _ = (List.takeWhile isSpaceChar s.reverse ++ List.dropWhile isSpaceChar s.reverse).reverse := by
          rw [List.takeWhile_append_dropWhile]
      _ = rstrip s ++ (s.reverse.takeWhile isSpaceChar).reverse := by
          rw [List.reverse_append]
          rfl
  · intro c hc
    rw [List.mem_reverse] at hc
    exact mem_takeWhile_pred hc

theorem countFences_rstrip (s : List Char) : countFences (rstrip s) = countFences s := by
  obtain ⟨hs, hw⟩ := rstrip_append_spec s
  conv_rhs => rw [hs]
  rw [countFences_append_of_clean]
  intro c hc hbc
  have h := hw c hc
  rw [hbc] at h
  exact absurd h (by decide)

theorem countFences_append_ellipsis (s : List Char) :
    countFences (s ++ ELLIPSIS) = countFences s := by
  apply countFences_append_of_clean
  intro c hc
  simp [ELLIPSIS] at hc
  rw [hc]
  decide

theorem length_rstrip_le (s : List Char) : (rstrip s).length ≤ s.length := by
  have h := (List.dropWhile_suffix (l := s.reverse) isSpaceChar).length_le
  simpa [rstrip] using h

theorem length_pySliceTo_le (s : List Char) (k : Int) : (pySliceTo s k).length ≤ s.length := by
  unfold pySliceTo
  split <;> simp [List.length_take]

theorem safe_truncate_length_le {text : List Char} {limit : Int} (h1 : 1 ≤ limit)
    (h2 : ¬ (text.length : Int) ≤ limit) :
    ((safe_truncate text limit).length : Int) ≤ limit := by
  unfold safe_truncate
  rw [if_neg h2]
  have hsl : (pySliceTo text (limit - 1)).length ≤ (limit - 1).toNat := by
    unfold pySliceTo
    rw [if_pos (by omega)]
    simp [List.length_take]
  have hbr : (if countFences (pySliceTo text (limit - 1)) % 2 ≠ 0 then
      rstrip (pySliceTo (pySliceTo text (limit - 1)) (rfindIdx (pySliceTo text (limit - 1))))
    else pySliceTo text (limit - 1)).length ≤ (limit - 1).toNat := by
    split
    · exact le_trans (le_trans (length_rstrip_le _) (length_pySliceTo_le _ _)) hsl
    · exact hsl
  rw [List.length_append]
  have he : ELLIPSIS.length = 1 := rfl
  rw [he]
  push_cast
  omega

theorem countFences_safe_truncate {text : List Char} {limit : Int}
    (h : countFences text % 2 = 0) : countFences (safe_truncate text limit) % 2 = 0 := by
  unfold safe_truncate
  split
  · exact h
  · rw [countFences_append_ellipsis]
    split
    · rename_i hodd
      cases hrf : rfindFence (pySliceTo text (limit - 1)) with
      | none =>
        exact absurd (countFences_eq_zero_of_rfind_none hrf) (by omega)
      | some i =>
        have hidx : rfindIdx (pySliceTo text (limit - 1)) = (i : Int) := by
          simp [rfindIdx, hrf]
        have hnn : (0 : Int) ≤ (i : Int) := Int.natCast_nonneg i
        have hslice : pySliceTo (pySliceTo text (limit - 1)) (rfindIdx (pySliceTo text (limit - 1))) =
            (pySliceTo text (limit - 1)).take i := by
          rw [hidx]
          simp [pySliceTo, hnn]
        rw [hslice, countFences_rstrip]
        have hc := count_take_rfind (pySliceTo text (limit - 1)).length
          (pySliceTo text (limit - 1)) i le_rfl hrf
        omega
    · rename_i heven
      omega

/-- **C4** (amended). `_safe_truncate(text, limit)` returns `text` unchanged
whenever `len(text) <= limit`; for every *positive* limit the result is never
longer than `limit` plus the length of the ellipsis marker; and whenever the
input's triple-backtick fence count is even, the result's fence count is even
(no unclosed code fence). The length bound genuinely requires `limit ≥ 1`:
for `limit ≤ 0` Python's negative slicing in `text[:limit-1]` keeps almost
all of the text (see the counterexample). -/
theorem C4_safe_truncate_props (text : List Char) (limit : Int) :
    ((text.length : Int) ≤ limit → safe_truncate text limit = text) ∧
    (1 ≤ limit → ((safe_truncate text limit).length : Int) ≤ limit + (ELLIPSIS.length : Int)) ∧
    (countFences text % 2 = 0 → countFences (safe_truncate text limit) % 2 = 0) := by
  refine ⟨fun h => ?_, fun h1 => ?_, fun h => countFences_safe_truncate h⟩
  · unfold safe_truncate
    rw [if_pos h]
  · by_cases h2 : (text.length : Int) ≤ limit
    · unfold safe_truncate
      rw [if_pos h2]
      simp [ELLIPSIS]
      omega
    · have hb := safe_truncate_length_le h1 h2
      have he : (ELLIPSIS.length : Int) = 1 := rfl
      omega

/-- **C4**: counterexample to the claim as stated. At `limit = 0` (which the
claim's "every limit" includes, and which `build_embed` can actually produce
via a long source link), `_safe_truncate("ab", 0)` returns `"a…"`, of length
2, exceeding `limit + len("…") = 1`: Python computes `"ab"[:-1] = "a"`. -/
theorem C4_counterexample :
    ¬ (((safe_truncate ['a', 'b'] 0).length : Int) ≤ 0 + (ELLIPSIS.length : Int)) := by
  decide

/-- Witness for C4 at concrete inputs. -/
theorem C4_witness :
    safe_truncate ['a'] 5 = ['a'] ∧
    ((safe_truncate ['a', 'b', 'c'] 2).length : Int) ≤ 2 + (ELLIPSIS.length : Int) ∧
    countFences (safe_truncate ['a', 'b', 'c'] 2) % 2 = 0 :=
  ⟨(C4_safe_truncate_props ['a'] 5).1 (by decide),
   (C4_safe_truncate_props ['a', 'b', 'c'] 2).2.1 (by decide),
   (C4_safe_truncate_props ['a', 'b', 'c'] 2).2.2 (by decide)⟩

/-! ### Snippet records and the rendering pipeline (`src/main.py`) -/

/-- Python exceptions that the embedded fragments can raise. -/
inductive PyErr
  | typeError
  | attributeError
deriving DecidableEq

/-- One snippet record (a JSON object), restricted to the three keys the
pipeline reads. For each field, `none` means the key is absent,
`some none` means the key holds JSON `null` (Python `None`), and
`some (some s)` means it holds the string `s`. -/
structure Snip where
  title : Option (Option (List Char)) := none
  content : Option (Option (List Char)) := none
  source : Option (Option (List Char)) := none
deriving DecidableEq

/-- Python `snip.get(key, default)`: the default is used only when the key is
absent; a stored `None` is returned as-is (`none` here). -/
def pyGet (field : Option (Option (List Char))) (default : List Char) : Option (List Char) :=
  match field with
  | none => some default
  | some v => v

/-- The dedup fingerprint: `content[:200].strip().lower()`. -/
def fingerprint (content : List Char) : List Char := toLowerL (strip (content.take 200))

/-- Worker for `_dedup_snippets`, carrying the `seen` set (as a list of
fingerprints). `content[:200]` on a `None` content raises `TypeError`. -/
def dedupGo : List Snip → List (List Char) → Except PyErr (List Snip)
  | [], _ => .ok []
  | snip :: rest, seen =>
    match pyGet snip.content [] with
    | none => .error .typeError
    | some c =>
      if fingerprint c ∈ seen then dedupGo rest seen
      else (dedupGo rest (fingerprint c :: seen)).map (fun l => snip :: l)

/-- `_dedup_snippets(snippets)` from `src/main.py`. -/
def dedup_snippets (snippets : List Snip) : Except PyErr (List Snip) := dedupGo snippets []

/-- Specification companion for C5, written from the spec's words: keep the
first occurrence of each fingerprint in input order, discard the rest. -/
def dedupSpecGo : List Snip → List (List Char) → List Snip
  | [], _ => []
  | snip :: rest, seen =>
    if fingerprint ((pyGet snip.content []).getD []) ∈ seen then dedupSpecGo rest seen
    else snip :: dedupSpecGo rest (fingerprint ((pyGet snip.content []).getD []) :: seen)

/-- Specification companion for C5 (top level). -/
def dedupSpec (l : List Snip) : List Snip := dedupSpecGo l []

/-- One field of the output embed. -/
structure EmbedField where
  name : List Char
  value : List Char
deriving DecidableEq

/-- The output container (`discord.Embed` as assembled by `build_embed`). -/
structure Embed where
  title : List Char
  description : List Char
  fields : List EmbedField
  footer : List Char
deriving DecidableEq

/-- Aggregate embed-body budget from `build_embed` (`max_embed_len`). -/
def MAX_EMBED_LEN : Nat := 5500

/-- Per-field budget from `build_embed` (`max_field_len`, Discord's limit). -/
def MAX_FIELD_LEN : Nat := 1024

/-- The literal `"Untitled"` default title. -/
def UNTITLED : List Char := "Untitled".toList

/-- The literal head of the source link, `"[Source]("`. -/
def SRC_HEAD : List Char := "[Source](".toList

/-- The trailing source link: `f"\n[Source]({source})"` when `source` is
truthy (a non-empty string), else the empty string. A `None` source is falsy
and also yields the empty string. -/
def sourceLink (sOpt : Option (List Char)) : List Char :=
  match sOpt with
  | some s => if s = [] then [] else '\n' :: (SRC_HEAD ++ s ++ [')'])
  | none => []

/-- The body of one rendered field: content truncated to
`max_field_len - len(source_link) - 1`, then the source link appended. -/
def renderBody (content : List Char) (link : List Char) : List Char :=
  safe_truncate content ((MAX_FIELD_LEN : Int) - (link.length : Int) - 1) ++ link

/-- The field a record would produce if accepted (used to state field order).
Only meaningful for records whose title/content are not `None`, which is
exactly when `build_embed` accepts them without raising. -/
def fieldOf (snip : Snip) : EmbedField :=
  { name := ((pyGet snip.title UNTITLED).getD []).take 256
    value := renderBody ((pyGet snip.content []).getD [])
      (sourceLink (pyGet snip.source [])) }

/-- The accepting loop of `build_embed` over the (already deduplicated and
`[:6]`-truncated) records, carrying `total_len`. Mirrors the Python loop:
skip a field whose body strips to empty (`continue`), stop at the first field
that would overflow the aggregate budget (`break`), raise `TypeError` at
`title[:256]` when the title is `None`. -/
def embedLoop : List Snip → Nat → Except PyErr (List EmbedField)
  | [], _ => .ok []
  | snip :: rest, total =>
    match pyGet snip.content [] with
    | none => .error .typeError
    | some content =>
      if strip (renderBody content (sourceLink (pyGet snip.source []))) = [] then
        embedLoop rest total
      else if MAX_EMBED_LEN <
          total + (renderBody content (sourceLink (pyGet snip.source []))).length then
        .ok []
      else
        match pyGet snip.title UNTITLED with
        | none => .error .typeError
        | some t =>
          (embedLoop rest
              (total + (renderBody content (sourceLink (pyGet snip.source []))).length)).map
            (fun fs =>
              { name := t.take 256
                value := renderBody content (sourceLink (pyGet snip.source [])) } :: fs)

/-- `build_embed(query, snippets, source_label)` from `src/main.py`. -/
def build_embed (query : List Char) (snippets : List Snip) (source_label : List Char) :
    Except PyErr Embed :=
  (dedup_snippets snippets).bind fun deduped =>
  (embedLoop (deduped.take 6) 0).map fun fields =>
    { title := "OpenHands".toList
      description := "**Q:** ".toList ++ query
      fields := fields
      footer := "Source: ".toList ++ source_label ++ " · Powered by Context7".toList }

/-! ### Lemmas about `_dedup_snippets` (claim C5) -/

theorem pyGet_ne_none {f : Option (Option (List Char))} {d : List Char}
    (h : f ≠ some none) : ∃ s, pyGet f d = some s := by
  cases f with
  | none => exact ⟨d, rfl⟩
  | some v =>
    cases v with
    | none => exact absurd rfl h
    | some s => exact ⟨s, rfl⟩

theorem dedupGo_sublist : ∀ (l : List Snip) (seen : List (List Char)) (y : List Snip),
    dedupGo l seen = .ok y → y.Sublist l := by
  intro l
  induction l with
  | nil =>
    intro seen y h
    simp only [dedupGo, Except.ok.injEq] at h
    subst h
    exact List.Sublist.refl []
  | cons snip rest ih =>
    intro seen y h
    cases hc : pyGet snip.content [] with
    | none => simp [dedupGo, hc] at h
    | some c =>
      simp only [dedupGo, hc] at h
      split at h
      · exact List.Sublist.cons _ (ih _ y h)
      · cases hr : dedupGo rest (fingerprint c :: seen) with
        | error e => simp [hr, Except.map] at h
        | ok y' =>
          simp only [hr, Except.map, Except.ok.injEq] at h
          subst h
          exact List.Sublist.cons₂ _ (ih _ y' hr)

theorem dedupGo_idem : ∀ (l : List Snip) (seen : List (List Char)) (y : List Snip),
    dedupGo l seen = .ok y → dedupGo y seen = .ok y := by
  intro l
  induction l with
  | nil =>
    intro seen y h
    simp only [dedupGo, Except.ok.injEq] at h
    subst h
    rfl
  | cons snip rest ih =>
    intro seen y h
    cases hc : pyGet snip.content [] with
    | none => simp [dedupGo, hc] at h
    | some c =>
      simp only [dedupGo, hc] at h
      split at h
      · exact ih _ y h
      · rename_i hmem
        cases hr : dedupGo rest (fingerprint c :: seen) with
        | error e => simp [hr, Except.map] at h
        | ok y' =>
          simp only [hr, Except.map, Except.ok.injEq] at h
          subst h
          simp only [dedupGo, hc]
          rw [if_neg hmem, ih _ y' hr]
          rfl

theorem dedupGo_spec : ∀ (l : List Snip) (seen : List (List Char)) (y : List Snip),
    dedupGo l seen = .ok y → y = dedupSpecGo l seen := by
  intro l
  induction l with
  | nil =>
    intro seen y h
    simp only [dedupGo, Except.ok.injEq] at h
    subst h
    rfl
  | cons snip rest ih =>
    intro seen y h
    cases hc : pyGet snip.content [] with
    | none => simp [dedupGo, hc] at h
    | some c =>
      simp only [dedupGo, hc] at h
      have hg : (pyGet snip.content []).getD [] = c := by rw [hc]; rfl
      split at h
      · rename_i hmem
        rw [dedupSpecGo, hg, if_pos hmem]
        exact ih _ y h
      · rename_i hmem
        cases hr : dedupGo rest (fingerprint c :: seen) with
        | error e => simp [hr, Except.map] at h
        | ok y' =>
          simp only [hr, Except.map, Except.ok.injEq] at h
          subst h
          rw [dedupSpecGo, hg, if_neg hmem]
          rw [ih _ y' hr]

theorem dedupGo_ok : ∀ (l : List Snip) (seen : List (List Char)),
    (∀ s ∈ l, s.content ≠ some none) → ∃ y, dedupGo l seen = .ok y := by
  intro l
  induction l with
  | nil => intro seen _; exact ⟨[], rfl⟩
  | cons snip rest ih =>
    intro seen hwf
    obtain ⟨c, hc⟩ := pyGet_ne_none (d := []) (hwf snip (by simp))
    simp only [dedupGo, hc]
    split
    · exact ih seen (fun s hs => hwf s (by simp [hs]))
    · obtain ⟨y, hy⟩ := ih (fingerprint c :: seen) (fun s hs => hwf s (by simp [hs]))
      rw [hy]
      exact ⟨snip :: y, rfl⟩

/-- **C5** (confirmed). `_dedup_snippets` is idempotent (in the exception
monad: re-running it on its own output returns the output unchanged, and an
error propagates unchanged); a successful result is a sublist of the input
(first-occurrence order preserved) of no greater length, and equals the
spec-side first-occurrence-per-fingerprint filter `dedupSpec`, whose
fingerprint is the lowercase, whitespace-trimmed first 200 characters of
`content`. -/
theorem C5_dedup_props :
    (∀ x, (dedup_snippets x).bind dedup_snippets = dedup_snippets x) ∧
    (∀ x y, dedup_snippets x = .ok y →
      y.Sublist x ∧ y.length ≤ x.length ∧ y = dedupSpec x) := by
  constructor
  · intro x
    cases h : dedup_snippets x with
    | error e => rfl
    | ok y => exact dedupGo_idem x [] y h
  · intro x y h
    exact ⟨dedupGo_sublist x [] y h, (dedupGo_sublist x [] y h).length_le,
      dedupGo_spec x [] y h⟩

/-- First example record for the C5 witness: content `"Abc"`. -/
def exSnipA : Snip := { content := some (some ['A', 'b', 'c']) }

/-- Second example record for the C5 witness: content `" abc "`, whose
fingerprint collides with `exSnipA`'s. -/
def exSnipB : Snip := { content := some (some [' ', 'a', 'b', 'c', ' ']) }

/-- Witness for C5: on `[exSnipA, exSnipB]` dedup keeps only the first. -/
theorem C5_witness :
    [exSnipA].Sublist [exSnipA, exSnipB] ∧
      [exSnipA].length ≤ [exSnipA, exSnipB].length ∧
      [exSnipA] = dedupSpec [exSnipA, exSnipB] :=
  C5_dedup_props.2 [exSnipA, exSnipB] [exSnipA] rfl

/-! ### Lemmas about `build_embed` (claims C3, C6, C9) -/

theorem embedLoop_sublist : ∀ (l : List Snip) (total : Nat) (fs : List EmbedField),
    embedLoop l total = .ok fs → fs.Sublist (l.map fieldOf) := by
  intro l
  induction l with
  | nil =>
    intro total fs h
    simp only [embedLoop, Except.ok.injEq] at h
    subst h
    simp
  | cons snip rest ih =>
    intro total fs h
    cases hc : pyGet snip.content [] with
    | none => simp [embedLoop, hc] at h
    | some c =>
      simp only [embedLoop, hc] at h
      split at h
      · exact List.Sublist.cons _ (ih total fs h)
      · split at h
        · simp only [Except.ok.injEq] at h
          subst h
          simp
        · cases ht : pyGet snip.title UNTITLED with
          | none => simp [ht] at h
          | some t =>
            simp only [ht] at h
            cases hr : embedLoop rest
                (total + (renderBody c (sourceLink (pyGet snip.source []))).length) with
            | error e => simp [hr, Except.map] at h
            | ok fs' =>
              simp only [hr, Except.map, Except.ok.injEq] at h
              subst h
              have hfield : fieldOf snip =
                  { name := t.take 256
                    value := renderBody c (sourceLink (pyGet snip.source [])) } := by
                simp [fieldOf, hc, ht]
              rw [List.map_cons, hfield]
              exact List.Sublist.cons₂ _ (ih _ fs' hr)

theorem embedLoop_budget : ∀ (l : List Snip) (total : Nat) (fs : List EmbedField),
    embedLoop l total = .ok fs →
      fs = [] ∨ total + (fs.map fun f => f.value.length).sum ≤ MAX_EMBED_LEN := by
  intro l
  induction l with
  | nil =>
    intro total fs h
    simp only [embedLoop, Except.ok.injEq] at h
    subst h
    exact Or.inl rfl
  | cons snip rest ih =>
    intro total fs h
    cases hc : pyGet snip.content [] with
    | none => simp [embedLoop, hc] at h
    | some c =>
      simp only [embedLoop, hc] at h
      split at h
      · exact ih total fs h
      · split at h
        · simp only [Except.ok.injEq] at h
          subst h
          exact Or.inl rfl
        · rename_i hfit
          cases ht : pyGet snip.title UNTITLED with
          | none => simp [ht] at h
          | some t =>
            simp only [ht] at h
            cases hr : embedLoop rest
                (total + (renderBody c (sourceLink (pyGet snip.source []))).length) with
            | error e => simp [hr, Except.map] at h
            | ok fs' =>
              simp only [hr, Except.map, Except.ok.injEq] at h
              subst h
              rcases ih _ fs' hr with h0 | hbound
              · subst h0
                right
                simp only [List.map_cons, List.map_nil, List.sum_cons, List.sum_nil]
                omega
              · right
                simp only [List.map_cons, List.sum_cons]
                omega

theorem safe_truncate_length_le' {text : List Char} {limit : Int} (h1 : 1 ≤ limit) :
    ((safe_truncate text limit).length : Int) ≤ limit := by
  by_cases h2 : (text.length : Int) ≤ limit
  · unfold safe_truncate
    rw [if_pos h2]
    exact h2
  · exact safe_truncate_length_le h1 h2

theorem renderBody_le_of_link {content link : List Char} (hl : (link.length : Int) ≤ 1022) :
    (renderBody content link).length ≤ MAX_FIELD_LEN := by
  unfold renderBody
  rw [List.length_append]
  have h : ((safe_truncate content ((MAX_FIELD_LEN : Int) - (link.length : Int) - 1)).length : Int) ≤
      (MAX_FIELD_LEN : Int) - (link.length : Int) - 1 :=
    safe_truncate_length_le' (by simp only [MAX_FIELD_LEN]; omega)
  simp only [MAX_FIELD_LEN] at h ⊢
  omega

theorem sourceLink_length {sOpt : Option (List Char)}
    (hs : ∀ u, sOpt = some u → u.length ≤ 1011) :
    ((sourceLink sOpt).length : Int) ≤ 1022 := by
  cases sOpt with
  | none => simp [sourceLink]
  | some u =>
    have hu := hs u rfl
    by_cases he : u = []
    · subst he
      simp [sourceLink]
    · have hform : sourceLink (some u) = '\n' :: (SRC_HEAD ++ u ++ [')']) := by
        simp [sourceLink, he]
      have hlen : (sourceLink (some u)).length = u.length + 11 := by
        rw [hform]
        simp only [List.length_cons, List.length_append, List.length_nil]
        have h9 : SRC_HEAD.length = 9 := rfl
        omega
      rw [hlen]
      push_cast
      omega

theorem embedLoop_value_le : ∀ (l : List Snip) (total : Nat) (fs : List EmbedField),
    embedLoop l total = .ok fs →
      (∀ s ∈ l, ∀ u, pyGet s.source [] = some u → u.length ≤ 1011) →
      ∀ f ∈ fs, f.value.length ≤ MAX_FIELD_LEN := by
  intro l
  induction l with
  | nil =>
    intro total fs h _
    simp only [embedLoop, Except.ok.injEq] at h
    subst h
    simp
  | cons snip rest ih =>
    intro total fs h hsrc
    cases hc : pyGet snip.content [] with
    | none => simp [embedLoop, hc] at h
    | some c =>
      simp only [embedLoop, hc] at h
      split at h
      · exact ih total fs h (fun s hs => hsrc s (by simp [hs]))
      · split at h
        · simp only [Except.ok.injEq] at h
          subst h
          simp
        · cases ht : pyGet snip.title UNTITLED with
          | none => simp [ht] at h
          | some t =>
            simp only [ht] at h
            cases hr : embedLoop rest
                (total + (renderBody c (sourceLink (pyGet snip.source []))).length) with
            | error e => simp [hr, Except.map] at h
            | ok fs' =>
              simp only [hr, Except.map, Except.ok.injEq] at h
              subst h
              intro f hf
              rcases List.mem_cons.mp hf with h1 | h2
              · subst h1
                exact renderBody_le_of_link (sourceLink_length (hsrc snip (by simp)))
              · exact ih _ fs' hr (fun s hs => hsrc s (by simp [hs])) f h2

theorem embedLoop_ok : ∀ (l : List Snip) (total : Nat),
    (∀ s ∈ l, s.title ≠ some none ∧ s.content ≠ some none) →
    ∃ fs, embedLoop l total = .ok fs := by
  intro l
  induction l with
  | nil => intro total _; exact ⟨[], rfl⟩
  | cons snip rest ih =>
    intro total hwf
    obtain ⟨c, hc⟩ := pyGet_ne_none (d := []) (hwf snip (by simp)).2
    simp only [embedLoop, hc]
    split
    · exact ih total (fun s hs => hwf s (by simp [hs]))
    · split
      · exact ⟨[], rfl⟩
      · obtain ⟨t, ht⟩ := pyGet_ne_none (d := UNTITLED) (hwf snip (by simp)).1
        rw [ht]
        obtain ⟨fs, hfs⟩ := ih _ (fun s hs => hwf s (by simp [hs]))
        rw [hfs]
        exact ⟨_, rfl⟩

theorem embedLoop_all_empty : ∀ (l : List Snip) (total : Nat),
    (∀ s ∈ l, pyGet s.content [] = some [] ∧ sourceLink (pyGet s.source []) = []) →
    embedLoop l total = .ok [] := by
  intro l
  induction l with
  | nil => intro total _; rfl
  | cons snip rest ih =>
    intro total hall
    obtain ⟨hc, hlink⟩ := hall snip (by simp)
    simp only [embedLoop, hc, hlink]
    rw [if_pos (show strip (renderBody [] []) = [] by decide)]
    exact ih total (fun s hs => hall s (by simp [hs]))

theorem build_embed_inv {q label : List Char} {snips : List Snip} {e : Embed}
    (h : build_embed q snips label = .ok e) :
    ∃ d fs, dedup_snippets snips = .ok d ∧ embedLoop (d.take 6) 0 = .ok fs ∧
      e.fields = fs := by
  cases hd : dedup_snippets snips with
  | error err =>
    unfold build_embed at h
    rw [hd] at h
    simp [Except.bind] at h
  | ok d =>
    unfold build_embed at h
    rw [hd] at h
    simp only [Except.bind] at h
    cases hl : embedLoop (d.take 6) 0 with
    | error err =>
      rw [hl] at h
      simp [Except.map] at h
    | ok fs =>
      rw [hl] at h
      simp only [Except.map, Except.ok.injEq] at h
      exact ⟨d, fs, rfl, hl, by rw [← h]⟩

/-- **C3** (amended). A successful `build_embed` produces at most 6 fields,
whose bodies sum to at most the aggregate budget (5500); the fields are, in
order, whole renderings of a subsequence of the post-dedupe records (so a
field that would overflow the aggregate budget is wholly excluded, never
partially included); and every field body fits the per-field limit (1024)
*provided* every record's source string is at most 1011 characters. The
per-field bound genuinely needs that proviso: a longer source makes the
computed truncation budget nonpositive, and Python's negative slicing then
produces an oversized field (see the counterexample). -/
theorem C3_build_embed_bounds (q label : List Char) (snips : List Snip) (e : Embed)
    (h : build_embed q snips label = .ok e) :
    e.fields.length ≤ 6 ∧
    (e.fields.map fun f => f.value.length).sum ≤ MAX_EMBED_LEN ∧
    (∀ d, dedup_snippets snips = .ok d → e.fields.Sublist ((d.take 6).map fieldOf)) ∧
    ((∀ s ∈ snips, ∀ u, pyGet s.source [] = some u → u.length ≤ 1011) →
      ∀ f ∈ e.fields, f.value.length ≤ MAX_FIELD_LEN) := by
  obtain ⟨d, fs, hd, hl, hfields⟩ := build_embed_inv h
  subst hfields
  have hsub := embedLoop_sublist _ _ _ hl
  refine ⟨?_, ?_, ?_, ?_⟩
  · have hlen := hsub.length_le
    simp only [List.length_map] at hlen
    have h6 : (d.take 6).length ≤ 6 := by
      simp [List.length_take]
    omega
  · rcases embedLoop_budget _ _ _ hl with h0 | hb
    · rw [h0]
      simp [MAX_EMBED_LEN]
    · simpa using hb
  · intro d' hd'
    rw [hd] at hd'
    injection hd' with h2
    subst h2
    exact hsub
  · intro hsrc
    refine embedLoop_value_le _ _ _ hl ?_
    intro s hm
    exact hsrc s ((dedupGo_sublist snips [] d hd).subset (List.take_subset 6 d hm))

/-- A record with a 1012-character source URL: the truncation budget
`1024 - len(source_link) - 1` is exactly 0 for it. -/
def exSnipLong : Snip :=
  { content := some (some ['h', 'i']), source := some (some (List.replicate 1012 'u')) }

/-- Does any field of a successful embed exceed the per-field limit? -/
def anyFieldTooLong : Except PyErr Embed → Bool
  | .ok e => e.fields.any fun f => MAX_FIELD_LEN < f.value.length
  | .error _ => false

set_option maxRecDepth 100000 in
/-- **C3**: counterexample to the claim as stated. With a record whose source
is 1012 characters long and content `"hi"`, `build_embed` emits a field of
length 1025 > 1024: the truncation budget is 0, so `_safe_truncate` slices
`"hi"[:-1] = "h"`, appends `"…"`, and the 1023-character source link follows. -/
theorem C3_counterexample :
    anyFieldTooLong (build_embed ['q'] [exSnipLong] ['L']) = true := by decide

/-- The embed produced for the single-record C3 witness input. -/
def exEmbedA : Embed :=
  { title := "OpenHands".toList
    description := "**Q:** ".toList ++ ['q']
    fields := [{ name := UNTITLED, value := ['A', 'b', 'c'] }]
    footer := "Source: ".toList ++ ['L'] ++ " · Powered by Context7".toList }

/-- Witness for C3 at a concrete input. -/
theorem C3_witness :
    exEmbedA.fields.length ≤ 6 ∧
    (exEmbedA.fields.map fun f => f.value.length).sum ≤ MAX_EMBED_LEN ∧
    exEmbedA.fields.Sublist (([exSnipA].take 6).map fieldOf) ∧
    (∀ f ∈ exEmbedA.fields, f.value.length ≤ MAX_FIELD_LEN) := by
  obtain ⟨h1, h2, h3, h4⟩ := C3_build_embed_bounds ['q'] ['L'] [exSnipA] exEmbedA rfl
  refine ⟨h1, h2, h3 [exSnipA] rfl, h4 ?_⟩
  intro s hs u hu
  simp only [List.mem_singleton] at hs
  subst hs
  simp only [exSnipA, pyGet] at hu
  injection hu with hu2
  subst hu2
  simp

/-- Number of fields of a successful embed (0 on error). -/
def numFields : Except PyErr Embed → Nat
  | .ok e => e.fields.length
  | .error _ => 0

/-- **C6** (amended). `build_embed` yields a container with zero fields on
empty input, and on inputs all of whose records have empty content *and* a
falsy (empty, missing or null) source. An empty-content record that carries a
source URL is *not* dropped: its field consists of the source link alone (see
the counterexample), because the code only skips a field whose assembled body
strips to the empty string. -/
theorem C6_empty_records (q label : List Char) :
    (∃ e, build_embed q [] label = .ok e ∧ e.fields = []) ∧
    (∀ snips,
      (∀ s ∈ snips, pyGet s.content [] = some [] ∧ sourceLink (pyGet s.source []) = []) →
      ∃ e, build_embed q snips label = .ok e ∧ e.fields = []) := by
  constructor
  · exact ⟨_, rfl, rfl⟩
  · intro snips hs
    have hwf : ∀ s ∈ snips, s.content ≠ some none := by
      intro s hsm heq
      have hc := (hs s hsm).1
      rw [heq] at hc
      simp [pyGet] at hc
    obtain ⟨d, hd⟩ := dedupGo_ok snips [] hwf
    have hsubd := dedupGo_sublist snips [] d hd
    have hloop := embedLoop_all_empty (d.take 6) 0
      (fun s hm => hs s (hsubd.subset (List.take_subset 6 d hm)))
    refine ⟨{ title := "OpenHands".toList
              description := "**Q:** ".toList ++ q
              fields := []
              footer := "Source: ".toList ++ label ++ " · Powered by Context7".toList },
      ?_, rfl⟩
    unfold build_embed
    rw [show dedup_snippets snips = .ok d from hd]
    simp only [Except.bind]
    rw [hloop]
    rfl

/-- An empty-content record that still carries a source URL. -/
def exSnipEmptySrc : Snip :=
  { content := some (some []), source := some (some "http://x".toList) }

/-- **C6**: counterexample to the claim as stated. A record with empty
content but a source URL produces one field (containing only the source
link), not zero. -/
theorem C6_counterexample :
    numFields (build_embed ['q'] [exSnipEmptySrc] ['L']) = 1 := by decide

/-- Witness for C6 at a concrete input (one empty-content, no-source record). -/
theorem C6_witness :
    numFields (build_embed ['q'] [{ content := some (some []) }] ['L']) = 0 := by
  obtain ⟨e, he, hf⟩ := (C6_empty_records ['q'] ['L']).2 [{ content := some (some []) }]
    (by intro s hs; simp only [List.mem_singleton] at hs; subst hs; exact ⟨rfl, rfl⟩)
  rw [he]
  simp [numFields, hf]

/-- Is the render an exception? -/
def isErrorEmbed : Except PyErr Embed → Bool
  | .error _ => true
  | .ok _ => false

/-- **C9** (amended). `build_embed` never raises provided no record stores a
JSON `null` under `title` or `content` (missing keys are fine, and a missing,
empty or `null` source is fine); on empty input it yields a container with
zero fields. A `null` title or content genuinely raises (`None[:256]` /
`None[:200]`): see the counterexample. -/
theorem C9_render_total (q label : List Char) :
    (∀ snips, (∀ s ∈ snips, s.title ≠ some none ∧ s.content ≠ some none) →
      ∃ e, build_embed q snips label = .ok e) ∧
    (∃ e, build_embed q [] label = .ok e ∧ e.fields = []) := by
  constructor
  · intro snips hwf
    obtain ⟨d, hd⟩ := dedupGo_ok snips [] (fun s hs => (hwf s hs).2)
    have hsubd := dedupGo_sublist snips [] d hd
    obtain ⟨fs, hfs⟩ := embedLoop_ok (d.take 6) 0
      (fun s hm => hwf s (hsubd.subset (List.take_subset 6 d hm)))
    refine ⟨{ title := "OpenHands".toList
              description := "**Q:** ".toList ++ q
              fields := fs
              footer := "Source: ".toList ++ label ++ " · Powered by Context7".toList }, ?_⟩
    unfold build_embed
    rw [show dedup_snippets snips = .ok d from hd]
    simp only [Except.bind]
    rw [hfs]
    rfl
  · exact ⟨_, rfl, rfl⟩

/-- A record whose title is JSON `null`. -/
def exSnipNullTitle : Snip := { title := some none, content := some (some ['h', 'i']) }

/-- **C9**: counterexample to the claim as stated. A record with a `null`
title makes `build_embed` raise (`None[:256]` is a `TypeError`), so `render`
does not tolerate arbitrary null fields. -/
theorem C9_counterexample :
    isErrorEmbed (build_embed ['q'] [exSnipNullTitle] ['L']) = true := by decide

/-- Witness for C9 at a concrete input. -/
theorem C9_witness :
    isErrorEmbed (build_embed ['q'] [exSnipA] ['L']) = false := by
  obtain ⟨e, he⟩ := (C9_render_total ['q'] ['L']).1 [exSnipA]
    (by intro s hs; simp only [List.mem_singleton] at hs; subst hs
        exact ⟨by simp [exSnipA], by simp [exSnipA]⟩)
  rw [he]
  rfl

/-! ### The Context7 client (`src/context7_client.py`): `_request` -/

/-- `MAX_RETRIES` from `src/context7_client.py`. -/
def MAX_RETRIES : Nat := 3

/-- The observable outcome of `_request`. `success k` means the response of
attempt `k` (0-based) was returned to the caller; `httpError` is the
`resp.raise_for_status()` failure path, reached after the code logs the
status and `body[:300]` at error level (the pair is the failure's diagnostic
payload); `rateLimited` is the final
`RuntimeError("Context7 rate limit exceeded after retries")`. -/
inductive ReqOutcome
  | success (attempt : Nat)
  | httpError (status : Nat) (excerpt : List Char)
  | rateLimited
deriving DecidableEq

/-- Result of `_request` together with the cumulative seconds slept in
backoff (`asyncio.sleep(2 ** attempt)` after each 429). -/
structure RequestResult where
  outcome : ReqOutcome
  waited : Nat
deriving DecidableEq

/-- The retry loop of `_request`, driven by the upstream responses (status
and body text per attempt). `fuel` counts the loop iterations remaining out
of `MAX_RETRIES` (`for attempt in range(MAX_RETRIES)`). -/
def reqGo (responses : Nat → Nat × List Char) : Nat → Nat → Nat → RequestResult
  | 0, _, waited => ⟨.rateLimited, waited⟩
  | fuel + 1, attempt, waited =>
    if (responses attempt).1 = 429 then
      reqGo responses fuel (attempt + 1) (waited + 2 ^ attempt)
    else if 400 ≤ (responses attempt).1 then
      ⟨.httpError (responses attempt).1 ((responses attempt).2.take 300), waited⟩
    else ⟨.success attempt, waited⟩

/-- `_request(path, params)`: run the retry loop from attempt 0. -/
def request (responses : Nat → Nat × List Char) : RequestResult :=
  reqGo responses MAX_RETRIES 0 0

/-- **C1** (confirmed). `_request` retries only on HTTP 429, sleeping
`2^attempt` seconds after each 429; three consecutive 429s exhaust the
attempt budget and fail with the distinct rate-limit error after waiting
`1 + 2 + 4 = 7` seconds; a 429 followed by a 200 succeeds on the second
attempt after a single 1-second backoff; and in general the first non-429
response at attempt `k` ends the loop then and there with cumulative wait
`2^k - 1` (a success when its status is below 400). -/
theorem C1_retry_policy :
    (∀ r, (∀ i, i < MAX_RETRIES → (r i).1 = 429) →
      request r = ⟨.rateLimited, 7⟩) ∧
    (∀ r, (r 0).1 = 429 → (r 1).1 = 200 → request r = ⟨.success 1, 1⟩) ∧
    (∀ r k, k < MAX_RETRIES → (∀ i, i < k → (r i).1 = 429) → (r k).1 ≠ 429 →
      (request r).waited = 2 ^ k - 1 ∧
      ((r k).1 < 400 → request r = ⟨.success k, 2 ^ k - 1⟩)) := by
  refine ⟨?_, ?_, ?_⟩
  · intro r h
    have h0 := h 0 (by norm_num [MAX_RETRIES])
    have h1 := h 1 (by norm_num [MAX_RETRIES])
    have h2 := h 2 (by norm_num [MAX_RETRIES])
    simp [request, MAX_RETRIES, reqGo, h0, h1, h2]
  · intro r h0 h1
    simp [request, MAX_RETRIES, reqGo, h0, h1]
  · intro r k hk hall hn
    have hk3 : k < 3 := by simpa [MAX_RETRIES] using hk
    interval_cases k
    · constructor
      · by_cases h4 : 400 ≤ (r 0).1 <;>
          simp [request, MAX_RETRIES, reqGo, hn, h4]
      · intro h4
        have h6 : ¬ 400 ≤ (r 0).1 := by omega
        simp [request, MAX_RETRIES, reqGo, hn, h6]
    · have h0 := hall 0 (by norm_num)
      constructor
      · by_cases h4 : 400 ≤ (r 1).1 <;>
          simp [request, MAX_RETRIES, reqGo, h0, hn, h4]
      · intro h4
        have h6 : ¬ 400 ≤ (r 1).1 := by omega
        simp [request, MAX_RETRIES, reqGo, h0, hn, h6]
    · have h0 := hall 0 (by norm_num)
      have h1 := hall 1 (by norm_num)
      constructor
      · by_cases h4 : 400 ≤ (r 2).1 <;>
          simp [request, MAX_RETRIES, reqGo, h0, h1, hn, h4]
      · intro h4
        have h6 : ¬ 400 ≤ (r 2).1 := by omega
        simp [request, MAX_RETRIES, reqGo, h0, h1, hn, h6]

/-- A response stream of nothing but 429s. -/
def resp429 : Nat → Nat × List Char := fun _ => (429, [])

/-- A 429 followed by 200s. -/
def resp429then200 : Nat → Nat × List Char := fun n => if n = 0 then (429, []) else (200, [])

/-- Witness for C1 at concrete response streams. -/
theorem C1_witness :
    request resp429 = ⟨.rateLimited, 7⟩ ∧
      request resp429then200 = ⟨.success 1, 1⟩ :=
  ⟨C1_retry_policy.1 resp429 (fun _ _ => rfl),
   C1_retry_policy.2.1 resp429then200 rfl rfl⟩

/-- **C7** (confirmed). A response with status ≥ 400 other than 429 at
attempt `k` (reached only through 429s) fails `_request` immediately — no
further attempt, no further wait — and the failure carries the status and
the first 300 characters of the body as its diagnostic payload (the code
logs `body[:300]` with the status at error level and then raises via
`raise_for_status()`). -/
theorem C7_http_error (r : Nat → Nat × List Char) (k : Nat) (hk : k < MAX_RETRIES)
    (hall : ∀ i, i < k → (r i).1 = 429) (h4 : 400 ≤ (r k).1) (hn : (r k).1 ≠ 429) :
    request r = ⟨.httpError ((r k).1) ((r k).2.take 300), 2 ^ k - 1⟩ := by
  have hk3 : k < 3 := by simpa [MAX_RETRIES] using hk
  interval_cases k
  · simp [request, MAX_RETRIES, reqGo, hn, h4]
  · have h0 := hall 0 (by norm_num)
    simp [request, MAX_RETRIES, reqGo, h0, hn, h4]
  · have h0 := hall 0 (by norm_num)
    have h1 := hall 1 (by norm_num)
    simp [request, MAX_RETRIES, reqGo, h0, h1, hn, h4]

/-- A response stream of 500s with body `"oops"`. -/
def resp500 : Nat → Nat × List Char := fun _ => (500, "oops".toList)

/-- Witness for C7: an immediate 500 fails at attempt 0 with no wait. -/
theorem C7_witness :
    request resp500 = ⟨.httpError 500 ("oops".toList.take 300), 0⟩ := by
  have h := C7_http_error resp500 0 (by norm_num [MAX_RETRIES])
    (fun i hi => absurd hi (Nat.not_lt_zero i)) (by norm_num [resp500]) (by norm_num [resp500])
  simpa [resp500] using h

/-! ### `get_context` and `search_library` response normalization -/

/-- JSON values, as returned by `resp.json()`. -/
inductive Json
  | null
  | bool (b : Bool)
  | num (n : Int)
  | str (s : List Char)
  | arr (xs : List Json)
  | obj (kvs : List (List Char × Json))

/-- The literal `"txt"` response type. -/
def TXT : List Char := "txt".toList

/-- The literal key `"results"`. -/
def KEY_RESULTS : List Char := "results".toList

/-- The literal key `"libraries"`. -/
def KEY_LIBRARIES : List Char := "libraries".toList

/-- The literal key `"content"`. -/
def KEY_CONTENT : List Char := "content".toList

/-- The literal key `"title"`. -/
def KEY_TITLE : List Char := "title".toList

/-- Python dict lookup (`key in data` / `data[key]`): first binding wins. -/
def lookupKey : List (List Char × Json) → List Char → Option Json
  | [], _ => none
  | (k, v) :: rest, key => if k = key then some v else lookupKey rest key

/-- `key in data` as a Bool. -/
def hasKey (kvs : List (List Char × Json)) (key : List Char) : Bool :=
  (lookupKey kvs key).isSome

/-- The candidate snippet-container keys of `get_context`, in source order:
`("results", "snippets", "context", "data", "items")`. -/
def SNIPPET_KEYS : List (List Char) :=
  ["results".toList, "snippets".toList, "context".toList, "data".toList, "items".toList]

/-- `key in data and isinstance(data[key], list)`: the value under the key,
when present and a list. -/
def asList : Option Json → Option (List Json)
  | some (.arr xs) => some xs
  | _ => none

/-- The key loop of `get_context`: the first key (in the fixed order) that is
present with a list value. -/
def firstListKey (kvs : List (List Char × Json)) : List (List Char) → Option (List Json)
  | [] => none
  | key :: rest =>
    match asList (lookupKey kvs key) with
    | some xs => some xs
    | none => firstListKey kvs rest

/-- The JSON-shape normalization of `get_context` (everything after the
`response_type == "txt"` branch). A non-list, non-object body raises
`AttributeError`: the debug log line evaluates `list(data.keys())` eagerly
before any key is probed. -/
def extract_snippets (data : Json) : Except PyErr (List Json) :=
  match data with
  | .arr xs => .ok xs
  | .obj kvs =>
    match firstListKey kvs SNIPPET_KEYS with
    | some xs => .ok xs
    | none =>
      if hasKey kvs KEY_CONTENT || hasKey kvs KEY_TITLE then .ok [.obj kvs]
      else .ok []
  | _ => .error .attributeError

/-- The result of `get_context`: raw text (txt mode) or a snippet list. -/
inductive CtxResult
  | rawText (s : List Char)
  | snippets (xs : List Json)

/-- `get_context(library_id, query, response_type)` seen from its response
handling: when `response_type == "txt"` exactly, it returns the text body
verbatim; for any other value it parses the JSON body and normalizes its
shape. -/
def get_context (response_type : List Char) (bodyText : List Char) (bodyJson : Json) :
    Except PyErr CtxResult :=
  if response_type = TXT then .ok (.rawText bodyText)
  else (extract_snippets bodyJson).map .snippets

/-- Python `data.get(key, default)` on a JSON object. -/
def dictGet (kvs : List (List Char × Json)) (key : List Char) (deflt : Json) : Json :=
  match lookupKey kvs key with
  | some v => v
  | none => deflt

/-- The response normalization of `search_library`:
`data` if it is a list, else `data.get("results", data.get("libraries", []))`.
A non-list, non-object body raises `AttributeError` (`.get` on it). -/
def search_normalize (data : Json) : Except PyErr Json :=
  match data with
  | .arr xs => .ok (.arr xs)
  | .obj kvs =>
    .ok (dictGet kvs KEY_RESULTS (dictGet kvs KEY_LIBRARIES (.arr [])))
  | _ => .error .attributeError

theorem firstListKey_some {kvs : List (List Char × Json)} :
    ∀ (keys : List (List Char)) (j : Nat) (xs : List Json), j < keys.length →
      asList (lookupKey kvs (keys.getD j [])) = some xs →
      (∀ i, i < j → asList (lookupKey kvs (keys.getD i [])) = none) →
      firstListKey kvs keys = some xs := by
  intro keys
  induction keys with
  | nil => intro j xs hj; simp at hj
  | cons key rest ih =>
    intro j xs hj hx hprev
    cases j with
    | zero =>
      simp only [List.getD_cons_zero] at hx
      simp only [firstListKey, hx]
    | succ j =>
      have h0 := hprev 0 (Nat.succ_pos j)
      simp only [List.getD_cons_zero] at h0
      simp only [List.getD_cons_succ] at hx
      simp only [firstListKey, h0]
      refine ih j xs (by simpa using hj) hx ?_
      intro i hi
      have h := hprev (i + 1) (by omega)
      simpa [List.getD_cons_succ] using h

theorem firstListKey_none {kvs : List (List Char × Json)} :
    ∀ (keys : List (List Char)),
      (∀ j, j < keys.length → asList (lookupKey kvs (keys.getD j [])) = none) →
      firstListKey kvs keys = none := by
  intro keys
  induction keys with
  | nil => intro _; rfl
  | cons key rest ih =>
    intro hall
    have h0 := hall 0 (Nat.succ_pos _)
    simp only [List.getD_cons_zero] at h0
    simp only [firstListKey, h0]
    refine ih ?_
    intro j hj
    have h := hall (j + 1) (by simpa using Nat.succ_lt_succ hj)
    simpa [List.getD_cons_succ] using h

/-- **C2** (amended). For a *list or object* JSON body, `get_context`
normalizes by exactly the claimed rules in the claimed priority order: a bare
list is returned unchanged; for an object, the first of the keys `results`,
`snippets`, `context`, `data`, `items` (in that fixed order) whose value is a
list is returned; otherwise an object with a `content` or `title` key is
wrapped in a singleton list, and otherwise the result is the empty list —
with no exception in any of these cases. The claim's "never an error" fails
only for a body that is neither a list nor an object, which raises
`AttributeError` (see the counterexample). -/
theorem C2_get_context_shapes :
    (∀ xs, extract_snippets (.arr xs) = .ok xs) ∧
    (∀ kvs j xs, j < SNIPPET_KEYS.length →
      asList (lookupKey kvs (SNIPPET_KEYS.getD j [])) = some xs →
      (∀ i, i < j → asList (lookupKey kvs (SNIPPET_KEYS.getD i [])) = none) →
      extract_snippets (.obj kvs) = .ok xs) ∧
    (∀ kvs,
      (∀ j, j < SNIPPET_KEYS.length →
        asList (lookupKey kvs (SNIPPET_KEYS.getD j [])) = none) →
      extract_snippets (.obj kvs) =
        .ok (if hasKey kvs KEY_CONTENT || hasKey kvs KEY_TITLE
          then [.obj kvs] else [])) := by
  refine ⟨fun xs => rfl, ?_, ?_⟩
  · intro kvs j xs hj hx hprev
    simp only [extract_snippets, firstListKey_some SNIPPET_KEYS j xs hj hx hprev]
  · intro kvs hall
    simp only [extract_snippets, firstListKey_none SNIPPET_KEYS hall]
    by_cases hck : (hasKey kvs KEY_CONTENT || hasKey kvs KEY_TITLE) = true <;>
      simp [hck]

/-- Did the call return without raising? -/
def exceptIsOk : Except PyErr (List Json) → Bool
  | .ok _ => true
  | .error _ => false

/-- **C2**: counterexample to the claim as stated. On a bare JSON string
body (neither list nor object) the code raises `AttributeError` instead of
returning the empty list: `log.debug(..., list(data.keys()))` is evaluated
eagerly and a `str` has no `.keys`. -/
theorem C2_counterexample :
    exceptIsOk (extract_snippets (.str ['h', 'i'])) = false := rfl

/-- Witness for C2: the `snippets` key wins when `results` holds a non-list. -/
theorem C2_witness :
    extract_snippets
        (.obj [(KEY_RESULTS, .str ['x']), ("snippets".toList, .arr [.null])]) =
      .ok [.null] :=
  C2_get_context_shapes.2.1 _ 1 [.null] (by norm_num [SNIPPET_KEYS]) rfl
    (fun i hi => by interval_cases i; rfl)

/-- **C10** (confirmed). Plain-text mode is selected only when
`response_type` is exactly `"txt"`: that value returns the raw text body
verbatim with no parsing, and every other value (e.g. `"text"`, `"plain"`,
the default `"json"`) goes through JSON parsing and shape normalization. -/
theorem C10_txt_mode (bodyText : List Char) (bodyJson : Json) :
    (get_context TXT bodyText bodyJson = .ok (.rawText bodyText)) ∧
    (∀ rt, rt ≠ TXT →
      get_context rt bodyText bodyJson = (extract_snippets bodyJson).map .snippets) := by
  constructor
  · simp [get_context]
  · intro rt hrt
    simp [get_context, hrt]

/-- Witness for C10 at concrete inputs (`"txt"`, `"text"`, `"json"`). -/
theorem C10_witness :
    get_context TXT ['h'] (.arr []) = .ok (.rawText ['h']) ∧
    get_context ("text".toList) ['h'] (.arr []) =
      (extract_snippets (.arr [])).map .snippets ∧
    get_context ("json".toList) ['h'] (.arr []) =
      (extract_snippets (.arr [])).map .snippets :=
  ⟨(C10_txt_mode ['h'] (.arr [])).1,
   (C10_txt_mode ['h'] (.arr [])).2 ("text".toList) (by decide),
   (C10_txt_mode ['h'] (.arr [])).2 ("json".toList) (by decide)⟩

/-- **C8** (amended). `search_library` returns a bare list body as-is; for an
object body it returns the value under `results`, else under `libraries`,
else the empty list — hence a flat list whenever those values, if present,
are lists. The claim's unconditional "always returns a flat list" fails:
`data.get("results", ...)` returns the stored value unchanged even when it is
not a list (see the counterexample), and a non-list, non-object body raises
`AttributeError`. -/
theorem C8_search_shapes :
    (∀ xs, search_normalize (.arr xs) = .ok (.arr xs)) ∧
    (∀ kvs xs, lookupKey kvs KEY_RESULTS = some (.arr xs) →
      search_normalize (.obj kvs) = .ok (.arr xs)) ∧
    (∀ kvs xs, lookupKey kvs KEY_RESULTS = none →
      lookupKey kvs KEY_LIBRARIES = some (.arr xs) →
      search_normalize (.obj kvs) = .ok (.arr xs)) ∧
    (∀ kvs, lookupKey kvs KEY_RESULTS = none →
      lookupKey kvs KEY_LIBRARIES = none →
      search_normalize (.obj kvs) = .ok (.arr [])) := by
  refine ⟨fun xs => rfl, ?_, ?_, ?_⟩
  · intro kvs xs h
    simp [search_normalize, dictGet, h]
  · intro kvs xs h1 h2
    simp [search_normalize, dictGet, h1, h2]
  · intro kvs h1 h2
    simp [search_normalize, dictGet, h1, h2]

/-- Is the result a JSON list? -/
def resultIsList : Except PyErr Json → Bool
  | .ok (.arr _) => true
  | _ => false

/-- **C8**: counterexample to the claim as stated. When the object stores a
non-list under `results` (here a string), `search_library` returns that
value itself — not a flat list. -/
theorem C8_counterexample :
    resultIsList (search_normalize (.obj [(KEY_RESULTS, .str ['x'])])) = false := rfl

/-- Witness for C8 at concrete object bodies. -/
theorem C8_witness :
    search_normalize (.obj [(KEY_RESULTS, .arr [.null])]) = .ok (.arr [.null]) ∧
    search_normalize (.obj [(KEY_LIBRARIES, .arr [])]) = .ok (.arr []) ∧
    search_normalize (.obj []) = .ok (.arr []) :=
  ⟨C8_search_shapes.2.1 _ [.null] rfl,
   C8_search_shapes.2.2.1 _ [] rfl rfl,
   C8_search_shapes.2.2.2 [] rfl rfl⟩

end OHBot
